import Mathlib

/-!
Verification development for `scholar-to-coa.py`, a four-stage pipeline:
profile fetch → co-author extraction/dedup → affiliation validation → TSV
export.  Python strings are modelled as `List Char`; Python dicts (which
preserve insertion order and keep the original key position on update) are
modelled as association lists with explicit insert-or-update operations;
Python sets of year strings are modelled as duplicate-free lists (only
membership and `max` are ever used on them, both order-independent).
Exceptions (`int(...)` in the year filter; the per-co-author lookup in
affiliation validation) are modelled with `Except`.  The external Scholar
service is modelled as data attached to each record (`fill` results inlined)
plus an environment function for the secondary name search; an `Except`
result of that environment models any exception raised during one
co-author's lookup.
-/

set_option autoImplicit false

namespace ScholarCoa

/-- Python strings are modelled as lists of characters. -/
abbrev Str := List Char

/-- The literal `"Unknown Institution"` used as the affiliation default. -/
def unknownInstitution : Str := "Unknown Institution".toList

/-- The literal `"Unknown"` used as the year default. -/
def unknownStr : Str := "Unknown".toList

/-- The literal row marker `"A:"` of the COA TSV format. -/
def markerA : Str := "A:".toList

/-- Python's `str.split(" ")`: split on every single space character,
keeping empty chunks; the empty string yields `[""]`. -/
def splitSp : Str → List Str
  | [] => [[]]
  | c :: cs =>
    if c = ' ' then [] :: splitSp cs
    else (c :: (splitSp cs).headD []) :: (splitSp cs).tail

/-- Python's `" ".join`: interleave a single space between chunks. -/
def joinSp : List Str → Str
  | [] => []
  | [x] => x
  | x :: y :: ys => x ++ ' ' :: joinSp (y :: ys)

/-- `_nsf_name_cleanup` on one name: `name_parts = coauthor.split(" ")`;
if more than one part, `f"{name_parts[-1]}, {' '.join(name_parts[:-1])}"`,
else the name unchanged. -/
def cleanName (s : Str) : Str :=
  if (splitSp s).length > 1 then
    (splitSp s).getLastD [] ++ ',' :: ' ' :: joinSp (splitSp s).dropLast
  else s

/-- `_nsf_name_cleanup`: clean every name in the list. -/
def nsfNameCleanup (coauthors : List Str) : List Str :=
  coauthors.map cleanName

/-- Inverse direction of `cleanName`, used to establish that distinct raw
names are never merged by the final renaming comprehension. -/
def uncleanName (t : Str) : Str :=
  match splitSp t with
  | p :: q :: qs => joinSp (q :: qs) ++ ' ' :: p.dropLast
  | _ => t

/-- Python's `str.split(" and ")`: scan left to right, breaking at each
non-overlapping occurrence of the five-character separator (the separator
is matched greedily at the leftmost position, and scanning resumes after
it). -/
def splitAnd : Str → List Str
  | ' ' :: 'a' :: 'n' :: 'd' :: ' ' :: rest => [] :: splitAnd rest
  | c :: rest => (c :: (splitAnd rest).headD []) :: (splitAnd rest).tail
  | [] => [[]]

/-- Value of an ASCII decimal digit, `none` for any other character. -/
def digitVal (c : Char) : Option Nat :=
  if '0' ≤ c ∧ c ≤ '9' then some (c.toNat - 48) else none

/-- Digits of a Python integer literal after the first digit: further
digits, with single underscores allowed only between digits. -/
def digitsTail (acc : Nat) : Str → Option Nat
  | [] => some acc
  | '_' :: c :: rest =>
    match digitVal c with
    | some d => digitsTail (10 * acc + d) rest
    | none => none
  | ['_'] => none
  | c :: rest =>
    match digitVal c with
    | some d => digitsTail (10 * acc + d) rest
    | none => none

/-- Digit run of a Python integer literal: at least one digit required. -/
def digitsStart : Str → Option Nat
  | [] => none
  | c :: rest =>
    match digitVal c with
    | some d => digitsTail d rest
    | none => none

/-- Characters stripped by Python's `int()` around the number. -/
def isPySpace (c : Char) : Bool :=
  c = ' ' || c = '\t' || c = '\n' || c = '\r' || c = '\x0b' || c = '\x0c'

/-- Strip leading and trailing whitespace. -/
def stripEnds (s : Str) : Str :=
  ((s.dropWhile isPySpace).reverse.dropWhile isPySpace).reverse

/-- Python's `int(s)` on a string: strip whitespace, optional sign, then a
digit run (underscores between digits allowed); `none` models the
`ValueError` raised on any other input. -/
def parsePyInt (s : Str) : Option Int :=
  match stripEnds s with
  | '+' :: rest => (digitsStart rest).map (fun n => (n : Int))
  | '-' :: rest => (digitsStart rest).map (fun n => -(n : Int))
  | t => (digitsStart t).map (fun n => (n : Int))

/-- Python's `<` on strings: lexicographic comparison by code point. -/
def strLt : Str → Str → Bool
  | [], [] => false
  | [], _ :: _ => true
  | _ :: _, [] => false
  | a :: as, b :: bs =>
    if a.toNat < b.toNat then true
    else if b.toNat < a.toNat then false
    else strLt as bs

/-- Python's `max` over a nonempty iterable of strings: keep the current
maximum, replacing it only on a strictly greater element. -/
def pyMax : List Str → Str
  | [] => []
  | x :: xs => xs.foldl (fun a b => if strLt a b then b else a) x

/-- A string made of ASCII decimal digits only (code points 48–57). -/
def isDigitStr (s : Str) : Bool :=
  s.all (fun c => 48 ≤ c.toNat && c.toNat ≤ 57)

/-- A publication summary of the subject's profile.  `pubYear?` is the
`bib.pub_year` field of the unfilled summary (used by the year filter);
the `filled*` fields are the result of `scholarly.fill(paper,
sections=["bib"])`, inlined as data. -/
structure Paper where
  pubYear? : Option Str
  filledAuthor? : Option Str
  filledPubYear? : Option Str
deriving DecidableEq

/-- A publication of a search candidate, as read during validation. -/
structure CandPub where
  pubYear? : Option Str
deriving DecidableEq

/-- A filled search candidate returned by `scholarly.search_author`. -/
structure Author where
  affiliation? : Option Str
  publications : List CandPub
deriving DecidableEq

/-- The subject's filled profile. -/
structure Profile where
  name? : Option Str
  publications : List Paper
deriving DecidableEq

/-- Effective year of a paper in the filter:
`int(p.get("bib", {}).get("pub_year", current_year))` — a missing year is
replaced by the current year (an `int`, so no parsing), a present year
string is parsed by `int(...)`, which may raise. -/
def effYear (currentYear : Int) (p : Paper) : Option Int :=
  match p.pubYear? with
  | none => some currentYear
  | some s => parsePyInt s

/-- The year-filter comprehension of `_get_unique_coauthors`: keep papers
whose effective year is `≥ year_cutoff`; the first unparseable present
year raises (modelled as `Except.error`). -/
def filterPapers (papers : List Paper) (yearCutoff currentYear : Int) :
    Except Unit (List Paper) :=
  match papers with
  | [] => .ok []
  | p :: ps =>
    match effYear currentYear p with
    | none => .error ()
    | some y =>
      match filterPapers ps yearCutoff currentYear with
      | .error e => .error e
      | .ok rest => .ok (if yearCutoff ≤ y then p :: rest else rest)

/-- `paper_full["bib"].get("pub_year", "Unknown")`: the year string stored
in a co-author's year-set. -/
def yearOfFilled (p : Paper) : Str :=
  p.filledPubYear?.getD unknownStr

/-- The co-author names of one filled paper:
`paper_full["bib"]["author"].split(" and ")` when the author field is
present, nothing otherwise. -/
def coauthorsOf (p : Paper) : List Str :=
  match p.filledAuthor? with
  | none => []
  | some a => splitAnd a

/-- Python `set.add` on the duplicate-free list model of a set. -/
def setAdd (ys : List Str) (y : Str) : List Str :=
  if y ∈ ys then ys else ys ++ [y]

/-- One accumulation step of `_get_unique_coauthors`: add a year to an
existing co-author entry, or append a fresh singleton entry. -/
def addYear : List (Str × List Str) → Str → Str → List (Str × List Str)
  | [], n, y => [(n, [y])]
  | (k, ys) :: rest, n, y =>
    if k = n then (k, setAdd ys y) :: rest
    else (k, ys) :: addYear rest n y

/-- Processing of a single retained paper in `_get_unique_coauthors`: split
the author field, skip the subject's own name, record the paper's year for
every other name. -/
def extractStep (myName? : Option Str) (m : List (Str × List Str)) (p : Paper) :
    List (Str × List Str) :=
  match p.filledAuthor? with
  | none => m
  | some a =>
    (splitAnd a).foldl
      (fun m' c => if some c = myName? then m' else addYear m' c (yearOfFilled p)) m

/-- The raw co-author dictionary `unique_coauthors`, keyed by the name as
it appears in the author field. -/
def uniqueCoauthorsRaw (filtered : List Paper) (myName? : Option Str) :
    List (Str × List Str) :=
  filtered.foldl (extractStep myName?) []

/-- Python dict insertion: update the value in place for an existing key,
append a fresh key at the end. -/
def dictInsert {α : Type} : List (Str × α) → Str → α → List (Str × α)
  | [], k, v => [(k, v)]
  | (k', v') :: rest, k, v =>
    if k' = k then (k', v) :: rest
    else (k', v') :: dictInsert rest k v

/-- A Python dict built from a sequence of key/value pairs in order (the
semantics of a dict comprehension). -/
def dictOfPairs {α : Type} (l : List (Str × α)) : List (Str × α) :=
  l.foldl (fun m kv => dictInsert m kv.1 kv.2) []

/-- First-match association-list lookup (Python dict access). -/
def lookupA {α : Type} : List (Str × α) → Str → Option α
  | [], _ => none
  | (k, v) :: rest, n => if k = n then some v else lookupA rest n

/-- `_get_unique_coauthors`: filter papers by year (may raise), accumulate
the raw co-author dictionary, then rebuild it keyed by
`_nsf_name_cleanup([name])[0]` (a dict comprehension). -/
def uniqueCoauthors (papers : List Paper) (yearCutoff currentYear : Int)
    (myName? : Option Str) : Except Unit (List (Str × List Str)) :=
  match filterPapers papers yearCutoff currentYear with
  | .error e => .error e
  | .ok filtered =>
    .ok (dictOfPairs ((uniqueCoauthorsRaw filtered myName?).map
      (fun kv => ((nsfNameCleanup [kv.1]).headD [], kv.2))))

/-- `pub.get("bib", {}).get("pub_year", "Unknown")` for a candidate's
publication. -/
def pubYearOfCand (pub : CandPub) : Str :=
  pub.pubYear?.getD unknownStr

/-- `author_filled.get("affiliation", "Unknown Institution")`. -/
def affiliationOf (a : Author) : Str :=
  a.affiliation?.getD unknownInstitution

/-- The inner validation loop over one candidate's publications: it sets
the affiliation exactly when some publication year lies in the co-author's
year-set (the loop breaks at the first such publication). -/
def candMatches (pubYears : List Str) (a : Author) : Bool :=
  a.publications.any (fun pub => decide (pubYearOfCand pub ∈ pubYears))

/-- The candidate loop of `_get_validated_affiliations`, carrying the
running `validated_affiliation` value: a matching candidate overwrites it
with that candidate's affiliation, and the loop breaks as soon as the
value differs from `"Unknown Institution"`. -/
def validGo (pubYears : List Str) (validated : Str) : List Author → Str
  | [] => validated
  | a :: rest =>
    if (if candMatches pubYears a then affiliationOf a else validated)
        = unknownInstitution then
      validGo pubYears (if candMatches pubYears a then affiliationOf a else validated) rest
    else
      (if candMatches pubYears a then affiliationOf a else validated)

/-- The candidate loop started from its initial value
`validated_affiliation = "Unknown Institution"`. -/
def validateCandidates (pubYears : List Str) (cands : List Author) : Str :=
  validGo pubYears unknownInstitution cands

/-- `max(pub_years) if pub_years else "Unknown"`. -/
def latestPubYear (pubYears : List Str) : Str :=
  if pubYears.isEmpty then unknownStr else pyMax pubYears

/-- The body of the per-co-author `try` block, given the outcome of the
external interaction for this co-author: an environment error models any
exception during the lookup, answered by the `except` branch with the
placeholder pair. -/
def lookupOneCoauthor (env : Str → Except Unit (List Author)) (c : Str)
    (pubYears : List Str) : Str × Str :=
  match env c with
  | .error _ => (unknownInstitution, unknownStr)
  | .ok cands => (validateCandidates pubYears cands, latestPubYear pubYears)

/-- `_get_validated_affiliations`: iterate the co-author dictionary items
in order, inserting one result per co-author under the same (unique) keys
— which is exactly a map over the association list. -/
def getValidatedAffiliations (env : Str → Except Unit (List Author))
    (m : List (Str × List Str)) : List (Str × (Str × Str)) :=
  m.map (fun kv => (kv.1, lookupOneCoauthor env kv.1 kv.2))

/-- `save_coa_tsv`: one row `["A:", name, affiliation, "", pub_date]` per
item of the co-author dictionary, in order.  (Opening the file with mode
`"w"` — a single output file, truncated if it exists — is an I/O effect
outside the embedding; the rows written are modelled.) -/
def saveCoaTsv (m : List (Str × (Str × Str))) : List (List Str) :=
  m.map (fun kv => [markerA, kv.1, kv.2.1, [], kv.2.2])

/-- The `__main__` pipeline after argument parsing: no profile means no
output; otherwise extract co-authors with cutoff
`current_year - years_back` (which may raise), validate affiliations, and
produce the rows written by `save_coa_tsv`. -/
def runPipeline (profile? : Option Profile) (yearsBack currentYear : Int)
    (env : Str → Except Unit (List Author)) :
    Except Unit (Option (List (List Str))) :=
  match profile? with
  | none => .ok none
  | some prof =>
    match uniqueCoauthors prof.publications (currentYear - yearsBack)
        currentYear prof.name? with
    | .error e => .error e
    | .ok coas => .ok (some (saveCoaTsv (getValidatedAffiliations env coas)))

/-- The flattened list of (name, year) accumulation events performed by
`_get_unique_coauthors` over the retained papers, in processing order. -/
def coauthorEvents (myName? : Option Str) (filtered : List Paper) : List (Str × Str) :=
  filtered.flatMap (fun p =>
    ((coauthorsOf p).filter (fun c => decide (some c ≠ myName?))).map
      (fun c => (c, yearOfFilled p)))

/-- Fold a list of (name, year) events into a co-author dictionary. -/
def foldAdd (m : List (Str × List Str)) (L : List (Str × Str)) :
    List (Str × List Str) :=
  L.foldl (fun m' e => addYear m' e.1 e.2) m

/-- Spec-side retention predicate of claim C3, written from the spec's
words: keep a publication exactly when its year is missing or its year is
`≥` the cutoff. -/
def specRetains (yearCutoff : Int) (p : Paper) : Bool :=
  match p.pubYear? with
  | none => true
  | some s =>
    match parsePyInt s with
    | none => false
    | some y => decide (yearCutoff ≤ y)

/-! Lemmas about `splitSp` and `joinSp`. -/

theorem splitSp_ne_nil (l : Str) : splitSp l ≠ [] := by
  cases l with
  | nil => simp [splitSp]
  | cons c cs => by_cases h : c = ' ' <;> simp [splitSp, h]

theorem joinSp_cons_cons (c : Char) (t : Str) (ts : List Str) :
    joinSp ((c :: t) :: ts) = c :: joinSp (t :: ts) := by
  cases ts with
  | nil => simp [joinSp]
  | cons u us => simp [joinSp]

theorem joinSp_splitSp (l : Str) : joinSp (splitSp l) = l := by
  induction l with
  | nil => simp [splitSp, joinSp]
  | cons c cs ih =>
    obtain ⟨y, ys, hys⟩ := List.exists_cons_of_ne_nil (splitSp_ne_nil cs)
    by_cases h : c = ' '
    · subst h
      rw [show splitSp (' ' :: cs) = [] :: splitSp cs from by simp [splitSp]]
      rw [hys, show joinSp ([] :: y :: ys) = [] ++ ' ' :: joinSp (y :: ys) from rfl]
      rw [← hys, ih]
      simp
    · rw [show splitSp (c :: cs) =
          (c :: (splitSp cs).headD []) :: (splitSp cs).tail from by simp [splitSp, h]]
      rw [hys]
      simp only [List.headD_cons, List.tail_cons]
      rw [joinSp_cons_cons, ← hys, ih]

theorem mem_splitSp_no_space (l : Str) : ∀ p ∈ splitSp l, ' ' ∉ p := by
  induction l with
  | nil =>
    intro p hp
    simp [splitSp] at hp
    subst hp; simp
  | cons c cs ih =>
    intro p hp
    obtain ⟨y, ys, hys⟩ := List.exists_cons_of_ne_nil (splitSp_ne_nil cs)
    by_cases h : c = ' '
    · subst h
      simp [splitSp] at hp
      rcases hp with h1 | h2
      · subst h1; simp
      · exact ih p h2
    · rw [show splitSp (c :: cs) =
          (c :: (splitSp cs).headD []) :: (splitSp cs).tail from by simp [splitSp, h],
        hys] at hp
      simp only [List.headD_cons, List.tail_cons, List.mem_cons] at hp
      rcases hp with h1 | h2
      · subst h1
        intro hmem
        rcases List.mem_cons.mp hmem with h3 | h4
        · exact h h3.symm
        · exact ih y (by rw [hys]; exact List.mem_cons_self y ys) h4
      · exact ih p (by rw [hys]; exact List.mem_cons_of_mem y h2)

theorem splitSp_of_no_space (l : Str) (h : ' ' ∉ l) : splitSp l = [l] := by
  induction l with
  | nil => simp [splitSp]
  | cons c cs ih =>
    have hc : ¬ c = ' ' := fun e => h (by simp [e])
    have hcs : ' ' ∉ cs := fun e => h (List.mem_cons_of_mem c e)
    simp [splitSp, hc, ih hcs]

theorem splitSp_append_no_space (a l : Str) (h : ' ' ∉ a) :
    splitSp (a ++ l) = (a ++ (splitSp l).headD []) :: (splitSp l).tail := by
  induction a with
  | nil =>
    obtain ⟨y, ys, hys⟩ := List.exists_cons_of_ne_nil (splitSp_ne_nil l)
    simp [hys]
  | cons c a' ih =>
    have hc : ¬ c = ' ' := fun e => h (by simp [e])
    have ha' : ' ' ∉ a' := fun e => h (List.mem_cons_of_mem c e)
    simp only [List.cons_append]
    rw [show splitSp (c :: (a' ++ l)) =
        (c :: (splitSp (a' ++ l)).headD []) :: (splitSp (a' ++ l)).tail from by
      simp [splitSp, hc]]
    rw [ih ha']
    simp

theorem splitSp_joinSp (ps : List Str) (h : ps ≠ []) (hsp : ∀ p ∈ ps, ' ' ∉ p) :
    splitSp (joinSp ps) = ps := by
  induction ps with
  | nil => exact absurd rfl h
  | cons x xs ih =>
    cases xs with
    | nil =>
      rw [show joinSp [x] = x from rfl]
      exact splitSp_of_no_space x (hsp x (by simp))
    | cons y ys =>
      have hx : ' ' ∉ x := hsp x (by simp)
      rw [show joinSp (x :: y :: ys) = x ++ ' ' :: joinSp (y :: ys) from rfl]
      rw [splitSp_append_no_space x _ hx]
      rw [show splitSp (' ' :: joinSp (y :: ys)) = [] :: splitSp (joinSp (y :: ys)) from by
        simp [splitSp]]
      rw [ih (by simp) (fun p hp => hsp p (List.mem_cons_of_mem x hp))]
      simp

theorem joinSp_concat (xs : List Str) (y : Str) (h : xs ≠ []) :
    joinSp (xs ++ [y]) = joinSp xs ++ ' ' :: y := by
  induction xs with
  | nil => exact absurd rfl h
  | cons x xs' ih =>
    cases xs' with
    | nil => simp [joinSp]
    | cons z zs =>
      have h2 := ih (by simp)
      simp only [List.cons_append] at h2 ⊢
      rw [show joinSp (x :: (z :: (zs ++ [y]))) = x ++ ' ' :: joinSp (z :: (zs ++ [y])) from rfl]
      rw [show joinSp (x :: z :: zs) = x ++ ' ' :: joinSp (z :: zs) from rfl]
      rw [h2]
      simp

/-! Lemmas about `cleanName`. -/

theorem cleanName_of_no_space (s : Str) (h : ' ' ∉ s) : cleanName s = s := by
  simp [cleanName, splitSp_of_no_space s h]

theorem cleanName_multi (ts : List Str) (t0 : Str) (h : ts ≠ [])
    (hsp : ∀ p ∈ ts ++ [t0], ' ' ∉ p) :
    cleanName (joinSp (ts ++ [t0])) = t0 ++ ',' :: ' ' :: joinSp ts := by
  have hs : splitSp (joinSp (ts ++ [t0])) = ts ++ [t0] :=
    splitSp_joinSp _ (by simp) hsp
  have hlen : (ts ++ [t0]).length > 1 := by
    rcases ts with _ | ⟨a, as⟩
    · exact absurd rfl h
    · simp
  rw [cleanName, hs, if_pos hlen, List.getLastD_concat, List.dropLast_concat]

theorem uncleanName_cleanName (s : Str) : uncleanName (cleanName s) = s := by
  obtain ⟨p, ps, hps⟩ := List.exists_cons_of_ne_nil (splitSp_ne_nil s)
  cases ps with
  | nil =>
    have hclean : cleanName s = s := by simp [cleanName, hps]
    have hx : joinSp [p] = s := by rw [← hps]; exact joinSp_splitSp s
    rw [hclean, uncleanName, hps]
  | cons q qs =>
    have hne : (p :: q :: qs) ≠ [] := by simp
    have hjoin : joinSp (p :: q :: qs) = s := by rw [← hps]; exact joinSp_splitSp s
    have hch : ∀ x ∈ p :: q :: qs, ' ' ∉ x := by
      rw [← hps]; exact mem_splitSp_no_space s
    have hdec : (p :: q :: qs).dropLast ++ [(p :: q :: qs).getLast hne] = p :: q :: qs :=
      List.dropLast_append_getLast hne
    have hinit_ne : (p :: q :: qs).dropLast ≠ [] := by
      rw [show (p :: q :: qs).dropLast = p :: (q :: qs).dropLast from rfl]
      simp
    have hlast_nospace : ' ' ∉ (p :: q :: qs).getLast hne :=
      hch _ (List.getLast_mem hne)
    have hinit_nospace : ∀ x ∈ (p :: q :: qs).dropLast, ' ' ∉ x := by
      intro x hx
      exact hch x (List.dropLast_subset _ hx)
    have hgetD : (p :: q :: qs).getLastD [] = (p :: q :: qs).getLast hne := by
      conv_lhs => rw [← hdec]
      rw [List.getLastD_concat]
    have hclean : cleanName s =
        (p :: q :: qs).getLast hne ++ ',' :: ' ' :: joinSp (p :: q :: qs).dropLast := by
      rw [cleanName, hps, if_pos (by simp), hgetD]
    have hsplit2 : splitSp (joinSp (p :: q :: qs).dropLast) = (p :: q :: qs).dropLast :=
      splitSp_joinSp _ hinit_ne hinit_nospace
    have hsplitClean : splitSp (cleanName s) =
        ((p :: q :: qs).getLast hne ++ [',']) :: (p :: q :: qs).dropLast := by
      rw [hclean, splitSp_append_no_space _ _ hlast_nospace]
      rw [show splitSp (',' :: ' ' :: joinSp (p :: q :: qs).dropLast) =
          [','] :: splitSp (joinSp (p :: q :: qs).dropLast) from by simp [splitSp]]
      rw [hsplit2]
      simp
    rw [uncleanName, hsplitClean]
    rw [show (p :: q :: qs).dropLast = p :: (q :: qs).dropLast from rfl]
    show joinSp (p :: (q :: qs).dropLast) ++
        ' ' :: ((p :: q :: qs).getLast hne ++ [',']).dropLast = s
    rw [List.dropLast_concat]
    rw [← joinSp_concat (p :: (q :: qs).dropLast) ((p :: q :: qs).getLast hne) (by simp)]
    have hdec2 : (p :: (q :: qs).dropLast) ++ [(p :: q :: qs).getLast hne] = p :: q :: qs :=
      hdec
    rw [hdec2, hjoin]

theorem cleanName_inj : Function.Injective cleanName :=
  Function.LeftInverse.injective uncleanName_cleanName

theorem cleanName_id_or_comma (s : Str) : cleanName s = s ∨ ',' ∈ cleanName s := by
  by_cases h : (splitSp s).length > 1
  · right
    rw [cleanName, if_pos h]
    simp
  · left
    rw [cleanName, if_neg h]

/-! Lemmas about `strLt` and `pyMax`. -/

theorem strLt_irrefl (s : Str) : strLt s s = false := by
  induction s with
  | nil => rfl
  | cons c cs ih => simp [strLt, ih]

theorem strLt_trans (a b c : Str) (h1 : strLt a b = true) (h2 : strLt b c = true) :
    strLt a c = true := by
  induction a generalizing b c with
  | nil =>
    cases c with
    | nil => cases b <;> simp [strLt] at h2
    | cons c0 cs => simp [strLt]
  | cons a0 as ih =>
    cases b with
    | nil => simp [strLt] at h1
    | cons b0 bs =>
      cases c with
      | nil => simp [strLt] at h2
      | cons c0 cs =>
        simp only [strLt] at h1 h2 ⊢
        by_cases hab : a0.toNat < b0.toNat
        · by_cases hbc : b0.toNat < c0.toNat
          · rw [if_pos (Nat.lt_trans hab hbc)]
          · by_cases hcb : c0.toNat < b0.toNat
            · rw [if_neg hbc, if_pos hcb] at h2
              exact absurd h2 (by simp)
            · have heq : b0.toNat = c0.toNat := by omega
              rw [if_pos (heq ▸ hab)]
        · by_cases hba : b0.toNat < a0.toNat
          · rw [if_neg hab, if_pos hba] at h1
            exact absurd h1 (by simp)
          · have heq : a0.toNat = b0.toNat := by omega
            rw [if_neg hab, if_neg hba] at h1
            by_cases hbc : b0.toNat < c0.toNat
            · rw [if_pos (heq ▸ hbc : a0.toNat < c0.toNat)]
            · by_cases hcb : c0.toNat < b0.toNat
              · rw [if_neg hbc, if_pos hcb] at h2
                exact absurd h2 (by simp)
              · have hac : ¬ a0.toNat < c0.toNat := by omega
                have hca : ¬ c0.toNat < a0.toNat := by omega
                rw [if_neg hbc, if_neg hcb] at h2
                rw [if_neg hac, if_neg hca]
                exact ih bs cs h1 h2

theorem strLt_false_trans (a b c : Str) (h1 : strLt a b = false)
    (h2 : strLt b c = false) : strLt a c = false := by
  induction a generalizing b c with
  | nil =>
    cases c with
    | nil => rfl
    | cons c0 cs =>
      cases b with
      | nil => simp [strLt] at h2
      | cons b0 bs => simp [strLt] at h1
  | cons a0 as ih =>
    cases c with
    | nil => cases as <;> rfl
    | cons c0 cs =>
      cases b with
      | nil => simp [strLt] at h2
      | cons b0 bs =>
        simp only [strLt] at h1 h2 ⊢
        by_cases hab : a0.toNat < b0.toNat
        · rw [if_pos hab] at h1
          exact absurd h1 (by simp)
        · by_cases hbc : b0.toNat < c0.toNat
          · rw [if_pos hbc] at h2
            exact absurd h2 (by simp)
          · have hac : ¬ a0.toNat < c0.toNat := by omega
            by_cases hca : c0.toNat < a0.toNat
            · rw [if_neg hac, if_pos hca]
            · have hba : ¬ b0.toNat < a0.toNat := by omega
              have hcb : ¬ c0.toNat < b0.toNat := by omega
              rw [if_neg hab, if_neg hba] at h1
              rw [if_neg hbc, if_neg hcb] at h2
              rw [if_neg hac, if_neg hca]
              exact ih bs cs h1 h2

theorem pyMax_fold_mem (xs : List Str) (acc : Str) :
    xs.foldl (fun a b => if strLt a b then b else a) acc = acc ∨
    xs.foldl (fun a b => if strLt a b then b else a) acc ∈ xs := by
  induction xs generalizing acc with
  | nil => left; rfl
  | cons b xs' ih =>
    rcases ih (if strLt acc b then b else acc) with h | h
    · by_cases hb : strLt acc b = true
      · right
        rw [List.foldl_cons, h, if_pos hb]
        simp
      · left
        rw [List.foldl_cons, h, if_neg hb]
    · right
      rw [List.foldl_cons]
      exact List.mem_cons_of_mem b h

theorem pyMax_mem (l : List Str) (h : l ≠ []) : pyMax l ∈ l := by
  cases l with
  | nil => exact absurd rfl h
  | cons x xs =>
    rcases pyMax_fold_mem xs x with h2 | h2
    · rw [pyMax, h2]; simp
    · rw [pyMax]; exact List.mem_cons_of_mem x h2

theorem pyMax_fold_ge (xs : List Str) : ∀ (acc x : Str), x = acc ∨ x ∈ xs →
    strLt (xs.foldl (fun a b => if strLt a b then b else a) acc) x = false := by
  induction xs with
  | nil =>
    intro acc x hx
    rcases hx with h | h
    · subst h; exact strLt_irrefl x
    · simp at h
  | cons b xs' ih =>
    intro acc x hx
    rw [List.foldl_cons]
    by_cases hb : strLt acc b = true
    · rw [if_pos hb]
      rcases hx with h | h
      · rw [h]
        have hRb := ih b b (Or.inl rfl)
        by_cases hRacc : strLt (xs'.foldl (fun a b => if strLt a b then b else a) b) acc = true
        · have h3 := strLt_trans _ acc b hRacc hb
          rw [h3] at hRb
          exact absurd hRb (by simp)
        · simpa using hRacc
      · rcases List.mem_cons.mp h with h2 | h2
        · rw [h2]; exact ih b b (Or.inl rfl)
        · exact ih b x (Or.inr h2)
    · rw [if_neg hb]
      rcases hx with h | h
      · rw [h]; exact ih acc acc (Or.inl rfl)
      · rcases List.mem_cons.mp h with h2 | h2
        · rw [h2]
          have hRacc := ih acc acc (Or.inl rfl)
          exact strLt_false_trans _ acc b hRacc (by simpa using hb)
        · exact ih acc x (Or.inr h2)

theorem pyMax_ge (l : List Str) (x : Str) (hx : x ∈ l) : strLt (pyMax l) x = false := by
  cases l with
  | nil => simp at hx
  | cons a as =>
    rw [pyMax]
    rcases List.mem_cons.mp hx with h | h
    · exact pyMax_fold_ge as a x (Or.inl h)
    · exact pyMax_fold_ge as a x (Or.inr h)

theorem digit_strLt_unknown (s : Str) (h : isDigitStr s = true) :
    strLt s unknownStr = true := by
  cases s with
  | nil => decide
  | cons c cs =>
    have hc : 48 ≤ c.toNat ∧ c.toNat ≤ 57 := by
      have := (List.all_eq_true.mp h) c (by simp)
      simpa using this
    obtain ⟨hc1, hc2⟩ := hc
    have hU : Char.toNat 'U' = 85 := by decide
    have hlt : c.toNat < Char.toNat 'U' := by omega
    rw [show unknownStr = 'U' :: "nknown".toList from by decide]
    simp only [strLt]
    rw [if_pos hlt]

theorem pyMax_of_unknown_mem (l : List Str) (hu : unknownStr ∈ l)
    (hall : ∀ y ∈ l, y = unknownStr ∨ isDigitStr y = true) : pyMax l = unknownStr := by
  have hne : l ≠ [] := by rintro rfl; simp at hu
  rcases hall (pyMax l) (pyMax_mem l hne) with h | h
  · exact h
  · have h1 := digit_strLt_unknown (pyMax l) h
    have h2 := pyMax_ge l unknownStr hu
    rw [h2] at h1
    exact absurd h1 (by simp)

/-! Lemmas about the association-list model of Python dicts and sets. -/

theorem mem_setAdd (ys : List Str) (y z : Str) : z ∈ setAdd ys y ↔ z ∈ ys ∨ z = y := by
  unfold setAdd
  by_cases h : y ∈ ys
  · rw [if_pos h]
    constructor
    · exact Or.inl
    · rintro (h2 | h2)
      · exact h2
      · rwa [h2]
  · rw [if_neg h]
    simp

theorem lookupA_addYear_self (m : List (Str × List Str)) (n y : Str) :
    lookupA (addYear m n y) n = some (match lookupA m n with
      | some ys => setAdd ys y
      | none => [y]) := by
  induction m with
  | nil => simp [addYear, lookupA]
  | cons kv rest ih =>
    obtain ⟨k, ys⟩ := kv
    by_cases h : k = n
    · subst h
      simp [addYear, lookupA]
    · simp [addYear, lookupA, h, ih]

theorem lookupA_addYear_other (m : List (Str × List Str)) (n y k : Str) (h : k ≠ n) :
    lookupA (addYear m n y) k = lookupA m k := by
  induction m with
  | nil =>
    have h2 : ¬ (n = k) := fun e => h e.symm
    simp [addYear, lookupA, h2]
  | cons kv rest ih =>
    obtain ⟨k', ys⟩ := kv
    by_cases h2 : k' = n
    · subst h2
      have h3 : ¬ (k' = k) := fun e => h e.symm
      simp [addYear, lookupA, h3]
    · simp [addYear, lookupA, h2, ih]

theorem lookupA_none_iff {α : Type} (m : List (Str × α)) (n : Str) :
    lookupA m n = none ↔ n ∉ m.map Prod.fst := by
  induction m with
  | nil =>
    constructor
    · intro _
      simp
    · intro _
      rfl
  | cons kv rest ih =>
    obtain ⟨k, v⟩ := kv
    rw [List.map_cons]
    by_cases h : k = n
    · subst h
      constructor
      · intro hl
        rw [lookupA, if_pos rfl] at hl
        exact absurd hl (by simp)
      · intro hm
        exact absurd (List.mem_cons_self k _) hm
    · rw [lookupA, if_neg h, ih]
      constructor
      · intro hm hmem
        rcases List.mem_cons.mp hmem with h2 | h2
        · exact h h2.symm
        · exact hm h2
      · intro hm h2
        exact hm (List.mem_cons_of_mem _ h2)

theorem lookupA_foldAdd_mem (L : List (Str × Str)) :
    ∀ (m : List (Str × List Str)) (n y : Str),
    ((∃ ys, lookupA (foldAdd m L) n = some ys ∧ y ∈ ys) ↔
      (∃ ys, lookupA m n = some ys ∧ y ∈ ys) ∨ (n, y) ∈ L) := by
  induction L with
  | nil =>
    intro m n y
    simp [foldAdd]
  | cons e L' ih =>
    intro m n y
    obtain ⟨c, z⟩ := e
    rw [show foldAdd m ((c, z) :: L') = foldAdd (addYear m c z) L' from rfl]
    rw [ih]
    have hstep : (∃ ys, lookupA (addYear m c z) n = some ys ∧ y ∈ ys) ↔
        ((∃ ys, lookupA m n = some ys ∧ y ∈ ys) ∨ (n = c ∧ y = z)) := by
      by_cases h : c = n
      · subst h
        rcases hm : lookupA m c with _ | ys
        · simp [lookupA_addYear_self, hm]
        · simp [lookupA_addYear_self, hm, mem_setAdd]
      · rw [lookupA_addYear_other m c z n (fun e => h e.symm)]
        simp [(show ¬ (n = c) from fun e => h e.symm)]
    rw [hstep]
    simp only [List.mem_cons, Prod.mk.injEq]
    exact or_assoc

theorem lookupA_foldAdd_none (L : List (Str × Str)) :
    ∀ (m : List (Str × List Str)) (n : Str),
    (lookupA (foldAdd m L) n = none ↔ lookupA m n = none ∧ n ∉ L.map Prod.fst) := by
  induction L with
  | nil =>
    intro m n
    simp [foldAdd]
  | cons e L' ih =>
    intro m n
    obtain ⟨c, z⟩ := e
    rw [show foldAdd m ((c, z) :: L') = foldAdd (addYear m c z) L' from rfl, ih]
    by_cases h : c = n
    · subst h
      simp [lookupA_addYear_self]
    · rw [lookupA_addYear_other m c z n (fun e => h e.symm)]
      simp [(show ¬ (n = c) from fun e => h e.symm), and_assoc]

theorem keys_addYear (m : List (Str × List Str)) (n y : Str) :
    (addYear m n y).map Prod.fst =
      if n ∈ m.map Prod.fst then m.map Prod.fst else m.map Prod.fst ++ [n] := by
  induction m with
  | nil => simp [addYear]
  | cons kv rest ih =>
    obtain ⟨k, ys⟩ := kv
    by_cases h : k = n
    · subst h
      simp [addYear]
    · have h3 : ¬ (n = k) := fun e => h e.symm
      by_cases h2 : n ∈ List.map Prod.fst rest <;>
        simp [addYear, h, ih, h2, h3]

theorem keys_nodup_addYear (m : List (Str × List Str)) (n y : Str)
    (h : (m.map Prod.fst).Nodup) : ((addYear m n y).map Prod.fst).Nodup := by
  rw [keys_addYear]
  by_cases h2 : n ∈ m.map Prod.fst
  · rwa [if_pos h2]
  · rw [if_neg h2, List.nodup_append]
    refine ⟨h, List.nodup_singleton n, ?_⟩
    intro a ha hb
    rw [List.mem_singleton] at hb
    subst hb
    exact h2 ha

theorem keys_nodup_foldAdd (L : List (Str × Str)) :
    ∀ m : List (Str × List Str), (m.map Prod.fst).Nodup →
      ((foldAdd m L).map Prod.fst).Nodup := by
  induction L with
  | nil => intro m h; exact h
  | cons e L' ih =>
    intro m h
    rw [show foldAdd m (e :: L') = foldAdd (addYear m e.1 e.2) L' from rfl]
    exact ih _ (keys_nodup_addYear m e.1 e.2 h)

theorem extract_inner_eq (my : Option Str) (yr : Str) (cs : List Str) :
    ∀ m, cs.foldl (fun m' c => if some c = my then m' else addYear m' c yr) m =
      foldAdd m ((cs.filter (fun c => decide (some c ≠ my))).map (fun c => (c, yr))) := by
  induction cs with
  | nil => intro m; rfl
  | cons c cs' ih =>
    intro m
    by_cases h : some c = my
    · simp only [List.foldl_cons, if_pos h, List.filter_cons]
      rw [ih]
      simp [h]
    · simp only [List.foldl_cons, if_neg h, List.filter_cons]
      rw [ih]
      simp only [show decide (some c ≠ my) = true from by simpa using h, List.map_cons]
      rfl

theorem uniqueCoauthorsRaw_eq_foldAdd (papers : List Paper) (my : Option Str) :
    ∀ m, papers.foldl (extractStep my) m = foldAdd m (coauthorEvents my papers) := by
  induction papers with
  | nil => intro m; rfl
  | cons p ps ih =>
    intro m
    rw [List.foldl_cons, ih]
    have hev : coauthorEvents my (p :: ps) =
        ((coauthorsOf p).filter (fun c => decide (some c ≠ my))).map
          (fun c => (c, yearOfFilled p)) ++ coauthorEvents my ps := by
      simp [coauthorEvents]
    rw [hev]
    rw [show ∀ (A B : List (Str × Str)) m0, foldAdd m0 (A ++ B) = foldAdd (foldAdd m0 A) B from
      fun A B m0 => List.foldl_append _ _ A B]
    congr 1
    cases ha : p.filledAuthor? with
    | none => simp [extractStep, ha, coauthorsOf, foldAdd]
    | some a =>
      simp only [extractStep, ha, coauthorsOf]
      exact extract_inner_eq my (yearOfFilled p) (splitAnd a) m

theorem uniqueCoauthorsRaw_eq (filtered : List Paper) (my : Option Str) :
    uniqueCoauthorsRaw filtered my = foldAdd [] (coauthorEvents my filtered) :=
  uniqueCoauthorsRaw_eq_foldAdd filtered my []

theorem dictInsert_not_mem {α : Type} (m : List (Str × α)) (k : Str) (v : α)
    (h : k ∉ m.map Prod.fst) : dictInsert m k v = m ++ [(k, v)] := by
  induction m with
  | nil => rfl
  | cons kv rest ih =>
    obtain ⟨k', v'⟩ := kv
    have h1 : ¬ (k' = k) := by
      intro e
      apply h
      rw [List.map_cons, e]
      exact List.mem_cons_self k _
    have h2 : k ∉ rest.map Prod.fst := by
      intro e
      apply h
      rw [List.map_cons]
      exact List.mem_cons_of_mem _ e
    simp [dictInsert, h1, ih h2]

theorem dictOfPairs_fold_nodup {α : Type} (l : List (Str × α)) :
    ∀ m : List (Str × α), ((m ++ l).map Prod.fst).Nodup →
      l.foldl (fun m' kv => dictInsert m' kv.1 kv.2) m = m ++ l := by
  induction l with
  | nil => intro m _; simp
  | cons kv l' ih =>
    intro m h
    rw [List.foldl_cons]
    have hk : kv.1 ∉ m.map Prod.fst := by
      intro hmem
      rw [List.map_append] at h
      rcases (List.nodup_append.mp h) with ⟨_, _, hdisj⟩
      exact hdisj hmem (by rw [List.map_cons]; exact List.mem_cons_self _ _)
    rw [dictInsert_not_mem _ _ _ hk]
    have h2 : (((m ++ [kv]) ++ l').map Prod.fst).Nodup := by
      rw [show (m ++ [kv]) ++ l' = m ++ (kv :: l') from by simp]
      exact h
    rw [ih (m ++ [kv]) h2]
    simp

theorem dictOfPairs_eq_self {α : Type} (l : List (Str × α))
    (h : (l.map Prod.fst).Nodup) : dictOfPairs l = l := by
  have h2 := dictOfPairs_fold_nodup l [] (by simpa using h)
  simpa [dictOfPairs] using h2

theorem lookupA_map_inj_key {α : Type} (f : Str → Str) (hf : Function.Injective f)
    (l : List (Str × α)) (n : Str) :
    lookupA (l.map (fun kv => (f kv.1, kv.2))) (f n) = lookupA l n := by
  induction l with
  | nil => rfl
  | cons kv rest ih =>
    obtain ⟨k, v⟩ := kv
    by_cases h : k = n
    · subst h
      simp [lookupA]
    · have h2 : ¬ (f k = f n) := fun e => h (hf e)
      simp [lookupA, h, h2, ih]

/-! Lemmas about the candidate-validation loop. -/

theorem validGo_unknown (ys : List Str) (cands : List Author) :
    validGo ys unknownInstitution cands =
      (match cands.find? (fun a =>
          candMatches ys a && decide (affiliationOf a ≠ unknownInstitution)) with
      | some a => affiliationOf a
      | none => unknownInstitution) := by
  induction cands with
  | nil => rfl
  | cons a rest ih =>
    rw [List.find?_cons]
    by_cases hm : candMatches ys a = true
    · by_cases ha : affiliationOf a = unknownInstitution
      · simp [validGo, hm, ha, ih]
      · simp [validGo, hm, ha]
    · simp only [Bool.not_eq_true] at hm
      simp [validGo, hm, ih]

theorem validateCandidates_no_match (ys : List Str) (cands : List Author)
    (h : ∀ a ∈ cands, candMatches ys a = false) :
    validateCandidates ys cands = unknownInstitution := by
  rw [validateCandidates, validGo_unknown]
  rw [List.find?_eq_none.mpr (fun a ha => by simp [h a ha])]

/-! Lemmas about the year filter. -/

theorem filterPapers_ok (papers : List Paper) (cutoff cur : Int)
    (h : ∀ p ∈ papers, (effYear cur p).isSome) :
    filterPapers papers cutoff cur =
      .ok (papers.filter (fun p => match effYear cur p with
        | some y => decide (cutoff ≤ y)
        | none => false)) := by
  induction papers with
  | nil => rfl
  | cons p ps ih =>
    have hp : (effYear cur p).isSome := h p (by simp)
    have hrest := ih (fun q hq => h q (List.mem_cons_of_mem _ hq))
    rcases hy : effYear cur p with _ | y
    · rw [hy] at hp
      simp at hp
    · by_cases hc : cutoff ≤ y
      · simp [filterPapers, hy, hc, hrest, List.filter_cons]
      · simp [filterPapers, hy, hc, hrest, List.filter_cons]

theorem filterPapers_error (papers : List Paper) (cutoff cur : Int)
    (h : ∃ p ∈ papers, effYear cur p = none) :
    filterPapers papers cutoff cur = .error () := by
  induction papers with
  | nil => simp at h
  | cons p ps ih =>
    rcases hy : effYear cur p with _ | y
    · simp [filterPapers, hy]
    · rcases h with ⟨q, hq, hqn⟩
      rcases List.mem_cons.mp hq with h2 | h2
      · rw [h2, hy] at hqn
        cases hqn
      · have h3 := ih ⟨q, h2, hqn⟩
        simp [filterPapers, hy, h3]

/-! Claim theorems. -/

/-- Claim C1, counterexample: the claim says the first candidate with a
publication year in the co-author's year-set wins — its affiliation is
accepted and no later candidate is inspected.  On this input the first
candidate does have a matching publication (year "2023"), yet its
affiliation (missing, hence defaulted to "Unknown Institution") is not the
result: the loop goes on and returns the second candidate's affiliation
"MIT". -/
theorem validate_first_match_counterexample :
    candMatches ["2023".toList] ⟨none, [⟨some ("2023".toList)⟩]⟩ = true ∧
    validateCandidates ["2023".toList]
      [⟨none, [⟨some ("2023".toList)⟩]⟩, ⟨some ("MIT".toList), [⟨some ("2023".toList)⟩]⟩]
      = "MIT".toList ∧
    "MIT".toList ≠ affiliationOf ⟨none, [⟨some ("2023".toList)⟩]⟩ := by
  refine ⟨rfl, rfl, ?_⟩
  decide

/-- Claim C1, amended: affiliation validation iterates the candidates in
source order and selects the first candidate that both has a publication
year in the co-author's year-set and carries an affiliation string
different from "Unknown Institution"; iteration stops there.  A matching
candidate whose affiliation is missing or equal to "Unknown Institution"
does not stop the iteration; if no candidate matches with such an
affiliation, the result is "Unknown Institution". -/
theorem validate_selects_first_nonunknown_match (ys : List Str) (cands : List Author) :
    validateCandidates ys cands =
      (match cands.find? (fun a =>
          candMatches ys a && decide (affiliationOf a ≠ unknownInstitution)) with
      | some a => affiliationOf a
      | none => unknownInstitution) :=
  validGo_unknown ys cands

/-- Claim C2, counterexample: a co-author with year-set {"2023"} for whom
no search candidate validates (the search returns no candidates, and no
exception occurs) is recorded as ("Unknown Institution", "2023") — the
second component is the maximum recorded year, not "Unknown". -/
theorem no_match_result_counterexample :
    lookupOneCoauthor (fun _ => Except.ok []) ("X".toList) ["2023".toList] =
      (unknownInstitution, "2023".toList) ∧ ("2023".toList : Str) ≠ unknownStr := by
  refine ⟨rfl, ?_⟩
  decide

/-- Claim C2, amended: for a co-author none of whose candidates has a
publication year in the year-set (and whose lookup raises no exception),
the affiliation recorded is "Unknown Institution" and the year recorded is
the maximum (under string comparison) of the co-author's year-set, or the
string "Unknown" when the year-set is empty.  The result is therefore not
the fixed pair ("Unknown Institution", "Unknown") in general; that pair is
recorded when the year-set is empty, when its string-maximum is itself
"Unknown" (e.g., the year-set {"Unknown"}, cf. claim C9), or via the
exception path (claim C7). -/
theorem no_match_result (env : Str → Except Unit (List Author)) (c : Str)
    (ys : List Str) (cands : List Author) (h1 : env c = Except.ok cands)
    (h2 : ∀ a ∈ cands, candMatches ys a = false) :
    lookupOneCoauthor env c ys =
      (unknownInstitution, if ys = [] then unknownStr else pyMax ys) := by
  rw [lookupOneCoauthor, h1]
  show (validateCandidates ys cands, latestPubYear ys) =
    (unknownInstitution, if ys = [] then unknownStr else pyMax ys)
  rw [validateCandidates_no_match ys cands h2]
  rw [latestPubYear]
  rcases ys with _ | ⟨a, ys'⟩
  · rfl
  · simp

/-- Witness for the amended claim C2 at a concrete input. -/
theorem no_match_result_witness :
    lookupOneCoauthor (fun _ => Except.ok []) ("Y".toList) ["2021".toList] =
      (unknownInstitution,
        if ["2021".toList] = ([] : List Str) then unknownStr else pyMax ["2021".toList]) :=
  no_match_result (fun _ => Except.ok []) ("Y".toList) ["2021".toList] []
    rfl (by intro a ha; simp at ha)

/-- Claim C3, counterexample: with a year cutoff above the current year
(reachable with a negative `--years-back`), a publication with a missing
year field is dropped by the filter, although the claim says missing-year
publications are always retained. -/
theorem year_filter_missing_year_counterexample :
    filterPapers [⟨none, none, none⟩] 2026 2025 = Except.ok [] ∧
    specRetains 2026 ⟨none, none, none⟩ = true := by
  exact ⟨rfl, rfl⟩

/-- Claim C3, amended: provided every present year field parses as an
integer (otherwise the filter raises, claim C10) and the cutoff does not
exceed the current year (true for any non-negative lookback), filtering
retains exactly the publications whose year is ≥ cutoff together with
those whose year field is missing; the cutoff year itself is included.
When the cutoff exceeds the current year, missing-year publications are
excluded, since the missing year defaults to the current year. -/
theorem year_filter_retains_spec (papers : List Paper) (cutoff cur : Int)
    (hp : ∀ p ∈ papers, p.pubYear?.all (fun s => (parsePyInt s).isSome) = true)
    (hc : cutoff ≤ cur) :
    filterPapers papers cutoff cur = Except.ok (papers.filter (specRetains cutoff)) := by
  have h1 : ∀ p ∈ papers, (effYear cur p).isSome := by
    intro p hp2
    have := hp p hp2
    rcases hy : p.pubYear? with _ | s
    · simp [effYear, hy]
    · rw [hy] at this
      simpa [effYear, hy] using this
  rw [filterPapers_ok papers cutoff cur h1]
  congr 1
  apply List.filter_congr
  intro p hp2
  rcases hy : p.pubYear? with _ | s
  · simp [effYear, hy, specRetains, hc]
  · rcases hs : parsePyInt s with _ | y
    · have := hp p hp2
      rw [hy] at this
      simp [hs] at this
    · simp [effYear, hy, hs, specRetains]

/-- Witness for the amended claim C3 at a concrete input: years 2023 and
2019 with cutoff 2021 and a missing year — the 2023 paper and the
missing-year paper are retained, the 2019 paper is dropped, and a paper
dated exactly 2021 is retained (cutoff inclusive). -/
theorem year_filter_retains_spec_witness :
    filterPapers [⟨some ("2023".toList), none, none⟩, ⟨some ("2019".toList), none, none⟩,
        ⟨none, none, none⟩, ⟨some ("2021".toList), none, none⟩] 2021 2025 =
      Except.ok ([⟨some ("2023".toList), none, none⟩, ⟨some ("2019".toList), none, none⟩,
        ⟨none, none, none⟩, ⟨some ("2021".toList), none, none⟩].filter (specRetains 2021)) :=
  year_filter_retains_spec _ 2021 2025 (by decide) (by decide)

/-- Claim C5: name reformatting maps a multi-token name to
"Last, First Middle" (the last space-separated token becomes the leading
surname, followed by a comma and the remaining tokens in order), maps any
single-token name to itself, and in particular maps "Jane Q Public" to
"Public, Jane Q" and "Madonna" to "Madonna". -/
theorem nsf_name_reformatting :
    (∀ (ts : List Str) (t0 : Str), ts ≠ [] → (∀ p ∈ ts ++ [t0], ' ' ∉ p) →
      cleanName (joinSp (ts ++ [t0])) = t0 ++ ',' :: ' ' :: joinSp ts) ∧
    (∀ s : Str, ' ' ∉ s → cleanName s = s) ∧
    cleanName ("Jane Q Public".toList) = "Public, Jane Q".toList ∧
    cleanName ("Madonna".toList) = "Madonna".toList := by
  refine ⟨cleanName_multi, cleanName_of_no_space, ?_, ?_⟩ <;> decide

/-- Witness for claim C5 at a concrete input. -/
theorem nsf_name_reformatting_witness :
    cleanName (joinSp (["Jane".toList, "Q".toList] ++ ["Public".toList])) =
      "Public".toList ++ ',' :: ' ' :: joinSp ["Jane".toList, "Q".toList] :=
  nsf_name_reformatting.1 ["Jane".toList, "Q".toList] ("Public".toList)
    (by decide) (by decide)

/-! Shared pipeline-level lemmas. -/

theorem uniqueCoauthors_ok_eq (papers : List Paper) (cutoff cur : Int)
    (myName? : Option Str) (filtered : List Paper) (coas : List (Str × List Str))
    (hf : filterPapers papers cutoff cur = Except.ok filtered)
    (hu : uniqueCoauthors papers cutoff cur myName? = Except.ok coas) :
    coas = (uniqueCoauthorsRaw filtered myName?).map (fun kv => (cleanName kv.1, kv.2)) := by
  rw [uniqueCoauthors, hf] at hu
  have hkeysnodup : ((uniqueCoauthorsRaw filtered myName?).map Prod.fst).Nodup := by
    rw [uniqueCoauthorsRaw_eq]
    exact keys_nodup_foldAdd _ [] (by simp)
  have hmapkeys : (((uniqueCoauthorsRaw filtered myName?).map
      (fun kv => (cleanName kv.1, kv.2))).map Prod.fst) =
      ((uniqueCoauthorsRaw filtered myName?).map Prod.fst).map cleanName := by
    rw [List.map_map, List.map_map]
    rfl
  have hnodup2 : ((((uniqueCoauthorsRaw filtered myName?).map
      (fun kv => (cleanName kv.1, kv.2))).map Prod.fst)).Nodup := by
    rw [hmapkeys]
    exact List.Nodup.map cleanName_inj hkeysnodup
  have hd : dictOfPairs ((uniqueCoauthorsRaw filtered myName?).map
      (fun kv => (cleanName kv.1, kv.2))) =
      (uniqueCoauthorsRaw filtered myName?).map (fun kv => (cleanName kv.1, kv.2)) :=
    dictOfPairs_eq_self _ hnodup2
  have hu2 : (Except.ok (dictOfPairs ((uniqueCoauthorsRaw filtered myName?).map
      (fun kv => (cleanName kv.1, kv.2)))) :
      Except Unit (List (Str × List Str))) = Except.ok coas := hu
  rw [hd] at hu2
  exact (Except.ok.inj hu2).symm

theorem raw_key_ne_myName (filtered : List Paper) (myName : Str) (k : Str)
    (hk : k ∈ (uniqueCoauthorsRaw filtered (some myName)).map Prod.fst) : k ≠ myName := by
  rw [uniqueCoauthorsRaw_eq] at hk
  have h3 : k ∈ (coauthorEvents (some myName) filtered).map Prod.fst := by
    by_contra hc
    have h0 : lookupA (foldAdd [] (coauthorEvents (some myName) filtered)) k = none :=
      (lookupA_foldAdd_none _ _ _).mpr ⟨rfl, hc⟩
    exact ((lookupA_none_iff _ _).mp h0) hk
  simp only [coauthorEvents, List.mem_map, List.mem_flatMap, List.mem_filter] at h3
  obtain ⟨e, ⟨p, hp, he⟩, hk2⟩ := h3
  obtain ⟨c, ⟨hc1, hc2⟩, hc3⟩ := he
  rw [← hc3] at hk2
  simp only [decide_eq_true_eq] at hc2
  rw [← hk2]
  intro he2
  have hcM : c = myName := he2
  exact hc2 (by rw [hcM])

/-- Claim C4: for the retained publications, extraction yields a mapping
with pairwise-distinct keys (one entry per normalized name — the
normalization is injective, proved via its explicit inverse), and for a
raw co-author name n other than the subject the entry at key
`cleanName n` holds exactly the set of years of the retained publications
in whose author list n appears. -/
theorem coauthor_dedup_union (papers : List Paper) (cutoff cur : Int) (myName : Str)
    (filtered : List Paper) (coas : List (Str × List Str))
    (hf : filterPapers papers cutoff cur = Except.ok filtered)
    (hu : uniqueCoauthors papers cutoff cur (some myName) = Except.ok coas) :
    (coas.map Prod.fst).Nodup ∧
    (∀ n y : Str, n ≠ myName →
      ((∃ ys, lookupA coas (cleanName n) = some ys ∧ y ∈ ys) ↔
        ∃ p ∈ filtered, n ∈ coauthorsOf p ∧ y = yearOfFilled p)) := by
  have heq := uniqueCoauthors_ok_eq papers cutoff cur (some myName) filtered coas hf hu
  subst heq
  have hkeysnodup : ((uniqueCoauthorsRaw filtered (some myName)).map Prod.fst).Nodup := by
    rw [uniqueCoauthorsRaw_eq]
    exact keys_nodup_foldAdd _ [] (by simp)
  constructor
  · rw [List.map_map]
    rw [show (Prod.fst ∘ fun kv : Str × List Str => (cleanName kv.1, kv.2)) =
        cleanName ∘ Prod.fst from rfl]
    rw [← List.map_map]
    exact List.Nodup.map cleanName_inj hkeysnodup
  · intro n y hn
    rw [lookupA_map_inj_key cleanName cleanName_inj]
    rw [uniqueCoauthorsRaw_eq]
    rw [lookupA_foldAdd_mem]
    constructor
    · rintro (⟨ys, h1, _⟩ | h1)
      · exact Option.noConfusion h1
      · simp only [coauthorEvents, List.mem_flatMap, List.mem_map, List.mem_filter] at h1
        obtain ⟨p, hp, c, ⟨hc1, hc2⟩, hc3⟩ := h1
        have hcn : c = n := congrArg Prod.fst hc3
        have hcy : yearOfFilled p = y := congrArg Prod.snd hc3
        subst hcn
        exact ⟨p, hp, hc1, hcy.symm⟩
    · rintro ⟨p, hp, hmem, hy⟩
      right
      simp only [coauthorEvents, List.mem_flatMap, List.mem_map, List.mem_filter]
      refine ⟨p, hp, n, ⟨hmem, ?_⟩, by rw [hy]⟩
      simp only [decide_eq_true_eq]
      intro he
      exact hn (Option.some.inj he)

/-- Witness for claim C4 at a concrete input: the name "A B" appears in
two retained publications (2024 and 2023), the subject "S" is skipped, and
the resulting mapping has the single key "B, A" with both years. -/
theorem coauthor_dedup_union_witness :
    ([("B, A".toList, ["2024".toList, "2023".toList])].map Prod.fst).Nodup ∧
    (∀ n y : Str, n ≠ "S".toList →
      ((∃ ys, lookupA [("B, A".toList, ["2024".toList, "2023".toList])] (cleanName n) =
          some ys ∧ y ∈ ys) ↔
        ∃ p ∈ [(⟨some ("2024".toList), some ("A B and S".toList), some ("2024".toList)⟩ : Paper),
            ⟨some ("2023".toList), some ("A B".toList), some ("2023".toList)⟩],
          n ∈ coauthorsOf p ∧ y = yearOfFilled p)) :=
  coauthor_dedup_union
    [⟨some ("2024".toList), some ("A B and S".toList), some ("2024".toList)⟩,
      ⟨some ("2023".toList), some ("A B".toList), some ("2023".toList)⟩]
    2020 2025 ("S".toList) _ _ rfl rfl

/-- Claim C6, counterexample: the claim says no row of the output ever has
a name field equal to the subject's own name.  With a profile whose
recorded name is already in the reformatted shape "B, A" and a co-author
"A B", the raw name "A B" is (correctly) not skipped, but its reformatted
output name "B, A" equals the subject's name, so the output row's name
field equals the subject's own name. -/
theorem subject_name_in_output_counterexample :
    runPipeline (some ⟨some ("B, A".toList),
        [⟨some ("2024".toList), some ("A B".toList), some ("2024".toList)⟩]⟩)
      4 2025 (fun _ => Except.ok []) =
      Except.ok (some [[markerA, "B, A".toList, unknownInstitution, [], "2024".toList]]) ∧
    ([markerA, "B, A".toList, unknownInstitution, [], "2024".toList] : List Str)[1]? =
      some ("B, A".toList) := by
  exact ⟨rfl, rfl⟩

/-- Claim C6, amended: every raw author-field entry equal to the subject's
name string is skipped during extraction; moreover, provided the subject's
recorded name contains no comma (in particular whenever it is not itself
in the reformatted "Last, First" shape), no row of the exported output has
a name field equal to the subject's name.  When the subject's name does
contain a comma, a differently written co-author name can reformat to the
subject's name and appear in the output. -/
theorem subject_name_excluded (prof : Profile) (yearsBack cur : Int)
    (env : Str → Except Unit (List Author)) (myName : Str) (rows : List (List Str))
    (hname : prof.name? = some myName)
    (hcomma : ',' ∉ myName)
    (hrun : runPipeline (some prof) yearsBack cur env = Except.ok (some rows)) :
    ∀ row ∈ rows, row[1]? ≠ some myName := by
  rw [runPipeline] at hrun
  rcases hu : uniqueCoauthors prof.publications (cur - yearsBack) cur prof.name?
      with e | coas
  · rw [hu] at hrun
    simp at hrun
  · rw [hu] at hrun
    have hrows : rows = saveCoaTsv (getValidatedAffiliations env coas) := by
      have h2 : (Except.ok (some (saveCoaTsv (getValidatedAffiliations env coas))) :
          Except Unit (Option (List (List Str)))) = Except.ok (some rows) := hrun
      exact (Option.some.inj (Except.ok.inj h2)).symm
    subst hrows
    rw [hname] at hu
    rcases hfe : filterPapers prof.publications (cur - yearsBack) cur with e | filtered
    · rw [uniqueCoauthors, hfe] at hu
      simp at hu
    · have heq := uniqueCoauthors_ok_eq _ _ _ _ _ _ hfe hu
      intro row hrow
      simp only [saveCoaTsv, getValidatedAffiliations, List.map_map, List.mem_map] at hrow
      obtain ⟨kv, hkv, hroweq⟩ := hrow
      rw [← hroweq]
      show some kv.1 ≠ some myName
      intro hcontra
      have hk1 : kv.1 = myName := Option.some.inj hcontra
      rw [heq] at hkv
      obtain ⟨kv0, hkv0, hkv0eq⟩ := List.mem_map.mp hkv
      have hraw : kv0.1 ≠ myName :=
        raw_key_ne_myName filtered myName kv0.1 (List.mem_map_of_mem Prod.fst hkv0)
      have hclean : cleanName kv0.1 = myName := by
        have h3 : (cleanName kv0.1, kv0.2).1 = kv.1 := congrArg Prod.fst hkv0eq
        rw [← hk1, ← h3]
      rcases cleanName_id_or_comma kv0.1 with hcase | hcase
      · rw [hcase] at hclean
        exact hraw hclean
      · rw [hclean] at hcase
        exact hcomma hcase

/-- Witness for the amended claim C6 at a concrete input: subject
"John Smith" (no comma), one publication with co-author "A B"; the single
output row's name field "B, A" differs from the subject's name. -/
theorem subject_name_excluded_witness :
    ([markerA, "B, A".toList, unknownInstitution, [], "2024".toList] : List Str)[1]? ≠
      some ("John Smith".toList) :=
  subject_name_excluded
    ⟨some ("John Smith".toList),
      [⟨some ("2024".toList), some ("A B and John Smith".toList), some ("2024".toList)⟩]⟩
    4 2025 (fun _ => Except.ok []) ("John Smith".toList)
    [[markerA, "B, A".toList, unknownInstitution, [], "2024".toList]] rfl (by decide) rfl
    [markerA, "B, A".toList, unknownInstitution, [], "2024".toList] (by decide)

/-- Claim C7: the affiliation-validation batch produces exactly one result
per co-author, in input order under the same keys; a co-author whose
lookup raises (modelled by the environment returning an error) is recorded
with the placeholder pair ("Unknown Institution", "Unknown") and the
remaining co-authors are still processed. -/
theorem lookup_error_placeholder_batch_completes
    (env : Str → Except Unit (List Author)) (m : List (Str × List Str)) :
    (getValidatedAffiliations env m).length = m.length ∧
    (∀ (i : Nat) (c : Str) (ys : List Str), m[i]? = some (c, ys) →
      ∃ r, (getValidatedAffiliations env m)[i]? = some (c, r) ∧
        (env c = Except.error () → r = (unknownInstitution, unknownStr))) := by
  constructor
  · simp [getValidatedAffiliations]
  · intro i c ys h
    refine ⟨lookupOneCoauthor env c ys, ?_, ?_⟩
    · rw [getValidatedAffiliations, List.getElem?_map, h]
      rfl
    · intro he
      rw [lookupOneCoauthor, he]

/-- Witness for claim C7 at a concrete input: with an environment that
always raises, the single co-author still gets a (placeholder) result. -/
theorem lookup_error_placeholder_batch_completes_witness :
    ∃ r, (getValidatedAffiliations (fun _ => Except.error ())
        [("X".toList, ["2023".toList])])[0]? = some ("X".toList, r) ∧
      ((fun _ : Str => (Except.error () : Except Unit (List Author))) ("X".toList) =
          Except.error () → r = (unknownInstitution, unknownStr)) :=
  (lookup_error_placeholder_batch_completes (fun _ => Except.error ())
    [("X".toList, ["2023".toList])]).2 0 ("X".toList) ["2023".toList] rfl

/-- Claim C8: the export writes exactly one row per co-author, in the
insertion order of the co-author mapping, each row being the five fields
["A:", name, affiliation, "", latest shared year].  (The single output
file, truncated on open with mode "w", is an I/O effect outside the
embedding; the rows and their order are modelled.) -/
theorem tsv_rows_one_per_coauthor (prof : Profile) (yearsBack cur : Int)
    (env : Str → Except Unit (List Author)) (coas : List (Str × List Str))
    (rows : List (List Str))
    (hu : uniqueCoauthors prof.publications (cur - yearsBack) cur prof.name? = Except.ok coas)
    (hr : runPipeline (some prof) yearsBack cur env = Except.ok (some rows)) :
    rows.length = coas.length ∧
    (∀ (i : Nat) (c : Str) (ys : List Str), coas[i]? = some (c, ys) →
      rows[i]? = some [markerA, c, (lookupOneCoauthor env c ys).1, [],
        (lookupOneCoauthor env c ys).2]) := by
  rw [runPipeline, hu] at hr
  have hrows : rows = saveCoaTsv (getValidatedAffiliations env coas) := by
    have h2 : (Except.ok (some (saveCoaTsv (getValidatedAffiliations env coas))) :
        Except Unit (Option (List (List Str)))) = Except.ok (some rows) := hr
    exact (Option.some.inj (Except.ok.inj h2)).symm
  subst hrows
  constructor
  · simp [saveCoaTsv, getValidatedAffiliations]
  · intro i c ys h
    rw [saveCoaTsv, getValidatedAffiliations, List.map_map, List.getElem?_map, h]
    rfl

/-- Witness for claim C8 at a concrete input: one co-author, one row with
the five fields in order. -/
theorem tsv_rows_one_per_coauthor_witness :
    ([[markerA, "B, A".toList, unknownInstitution, [], "2024".toList]] :
        List (List Str)).length = [("B, A".toList, ["2024".toList])].length ∧
    (∀ (i : Nat) (c : Str) (ys : List Str),
      [("B, A".toList, ["2024".toList])][i]? = some (c, ys) →
      [[markerA, "B, A".toList, unknownInstitution, [], "2024".toList]][i]? =
        some [markerA, c,
          (lookupOneCoauthor (fun _ => Except.ok []) c ys).1, [],
          (lookupOneCoauthor (fun _ => Except.ok []) c ys).2]) :=
  tsv_rows_one_per_coauthor
    ⟨some ("S T".toList),
      [⟨some ("2024".toList), some ("A B and S T".toList), some ("2024".toList)⟩]⟩
    4 2025 (fun _ => Except.ok []) [("B, A".toList, ["2024".toList])]
    [[markerA, "B, A".toList, unknownInstitution, [], "2024".toList]] rfl rfl

/-- Claim C9: the year stored for a publication with no year field in the
filled record is the literal string "Unknown", and the "latest shared
year" reported for a co-author is the maximum of the year-set under
string (code-point) comparison; consequently, for a year-set containing
"Unknown" alongside digit-string years, the reported latest year is
"Unknown", not the numerically largest year. -/
theorem latest_year_string_max (env : Str → Except Unit (List Author)) (c : Str)
    (ys : List Str) (cands : List Author) (h1 : env c = Except.ok cands)
    (h2 : unknownStr ∈ ys) (h3 : ∀ y ∈ ys, y = unknownStr ∨ isDigitStr y = true) :
    (∀ p : Paper, p.filledPubYear? = none → yearOfFilled p = unknownStr) ∧
    (lookupOneCoauthor env c ys).2 = unknownStr := by
  constructor
  · intro p hp
    rw [yearOfFilled, hp]
    rfl
  · rw [lookupOneCoauthor, h1]
    show latestPubYear ys = unknownStr
    rcases ys with _ | ⟨a, ys'⟩
    · simp at h2
    · rw [latestPubYear, if_neg (by simp)]
      exact pyMax_of_unknown_mem _ h2 h3

/-- Witness for claim C9 at a concrete input: year-set {"2023", "Unknown"}
reports "Unknown" as the latest year. -/
theorem latest_year_string_max_witness :
    (lookupOneCoauthor (fun _ => Except.ok []) ("X".toList)
      ["2023".toList, "Unknown".toList]).2 = unknownStr :=
  (latest_year_string_max (fun _ => Except.ok []) ("X".toList)
    ["2023".toList, "Unknown".toList] [] rfl (by decide) (by decide)).2

/-- Claim C10: a present but unparseable year field makes the year filter
raise, aborting the whole run before any output is produced, whereas runs
in which every present year field parses (missing year fields included)
complete with output. -/
theorem unparseable_year_aborts (prof : Profile) (yearsBack cur : Int)
    (env : Str → Except Unit (List Author)) :
    ((∃ p ∈ prof.publications, ∃ s, p.pubYear? = some s ∧ parsePyInt s = none) →
      runPipeline (some prof) yearsBack cur env = Except.error ()) ∧
    ((∀ p ∈ prof.publications, ∀ s, p.pubYear? = some s → (parsePyInt s).isSome) →
      ∃ rows, runPipeline (some prof) yearsBack cur env = Except.ok (some rows)) := by
  constructor
  · rintro ⟨p, hp, s, hs, hparse⟩
    have herr : filterPapers prof.publications (cur - yearsBack) cur = Except.error () := by
      apply filterPapers_error
      exact ⟨p, hp, by simp [effYear, hs, hparse]⟩
    rw [runPipeline, uniqueCoauthors, herr]
  · intro h
    have hok : ∀ q ∈ prof.publications, (effYear cur q).isSome := by
      intro q hq
      rcases hy : q.pubYear? with _ | s
      · simp [effYear, hy]
      · have h2 := h q hq s hy
        simpa [effYear, hy] using h2
    rcases hu : uniqueCoauthors prof.publications (cur - yearsBack) cur prof.name?
        with e | coas
    · rw [uniqueCoauthors, filterPapers_ok _ _ _ hok] at hu
      simp at hu
    · exact ⟨_, by rw [runPipeline, hu]⟩

/-- Witness for claim C10 at a concrete input: a publication whose year
field is the unparseable string "Unknown" aborts the run. -/
theorem unparseable_year_aborts_witness :
    runPipeline (some ⟨none, [⟨some ("Unknown".toList), none, none⟩]⟩) 4 2025
      (fun _ => Except.ok []) = Except.error () :=
  (unparseable_year_aborts ⟨none, [⟨some ("Unknown".toList), none, none⟩]⟩ 4 2025
    (fun _ => Except.ok [])).1
    ⟨⟨some ("Unknown".toList), none, none⟩, by simp, "Unknown".toList, rfl, by decide⟩

end ScholarCoa
